import Mathlib

/-!
# Verification of the `code2md` flattening tool (`src/main.rs`)

A shallow embedding of the Rust program that walks a source directory,
filters entries, and concatenates the surviving text files into one
Markdown document.  Filesystem names are modelled as `String` (the Rust
code maps non-UTF-8 names to `""` via `to_str().unwrap_or("")`; we only
consider UTF-8 names).  Each fallible system call (canonicalize, metadata,
open/read, full read) is modelled as an explicit outcome value, because in
the program each is an independent call whose failure is handled locally.
-/

deriving instance DecidableEq for Except

namespace Code2md

/-- The ignored-directories table (`get_ignore_dirs`), matched
case-sensitively against directory names. -/
def get_ignore_dirs : List String :=
  [".git", ".idea", ".vscode", ".vs", "__pycache__", "node_modules",
   "venv", ".venv", "env", "dist", "build", "target", "out",
   "bin", "obj", "debug", "release",
   ".gradle", "captures", "gradle", ".DS_Store", "coverage", ".next", ".nuxt"]

/-- The ignored-file-names table (`get_ignore_filenames`), matched against
the lowercased file name. -/
def get_ignore_filenames : List String :=
  ["gradlew", "gradlew.bat", "mvnw", "mvnw.cmd",
   "local.properties", "thumbs.db", "desktop.ini",
   "package-lock.json", "yarn.lock", "pnpm-lock.yaml", "cargo.lock", "poetry.lock"]

/-- The ignored-extensions table (`get_ignore_extensions`); each entry
carries the leading dot and is matched against `"." + lowercased ext`. -/
def get_ignore_extensions : List String :=
  [".png", ".jpg", ".jpeg", ".gif", ".bmp", ".ico", ".svg", ".webp", ".tiff",
   ".mp3", ".mp4", ".wav", ".avi", ".mov",
   ".exe", ".dll", ".so", ".dylib", ".bin", ".apk", ".aab", ".jar", ".war",
   ".zip", ".tar", ".gz", ".7z", ".rar", ".iso", ".cab",
   ".pyc", ".class", ".o", ".obj", ".pdb", ".suo",
   ".db", ".sqlite", ".sqlite3", ".lock", ".log",
   ".md"]

/-- Rust's `str::starts_with(c)` for a single character: the first
character of the string is `c`. -/
def startsWithChar (s : String) (c : Char) : Bool := s.data.head? = some c

/-- Rust's `str::to_lowercase`, restricted to its effect on the names the
program compares (ASCII table entries): lowercase every character. -/
def toLowerStr (s : String) : String := ⟨s.data.map Char.toLower⟩

/-- A directory entry as seen by the classifier: its final-component name
and whether `entry.file_type().is_dir()` holds. -/
structure Entry where
  name : String
  isDir : Bool
deriving DecidableEq, Repr

/-- `is_hidden_or_ignored` from `src/main.rs`: a directory is excluded when
its name starts with `'.'`, has length `> 1` and is not `".github"`, or when
it is in the ignored-directories table; a non-directory is excluded when its
lowercased name is in the ignored-file-names table.  (Rust's `len()` counts
bytes while `String.length` counts characters; for a name starting with the
one-byte character `'.'`, `len() > 1` and `length > 1` agree.) -/
def is_hidden_or_ignored (entry : Entry) : Bool :=
  if entry.isDir then
    if startsWithChar entry.name '.' && entry.name.length > 1 && entry.name ≠ ".github" then
      true
    else
      get_ignore_dirs.contains entry.name
  else
    get_ignore_filenames.contains (toLowerStr entry.name)

/-- Outcome of `File::open` followed by one `read` into a 1024-byte buffer:
either the open fails, the read fails, or the read succeeds and yields the
bytes `buffer[..n]` (so `bytes.length ≤ 1024`; the bound is not needed for
the statements below). -/
inductive ReadOutcome where
  | openErr : ReadOutcome
  | readErr : ReadOutcome
  | ok (bytes : List Nat) : ReadOutcome
deriving DecidableEq, Repr

/-- `is_text_file` from `src/main.rs`: `false` when the open or the read
fails; `true` when zero bytes were read; otherwise `true` iff no read byte
is the null byte. -/
def is_text_file : ReadOutcome → Bool
  | .openErr => false
  | .readErr => false
  | .ok bytes => if bytes.length = 0 then true else ¬ bytes.contains 0

/-- The Unicode replacement character U+FFFD. -/
def replChar : Char := Char.ofNat 0xFFFD

/-- Range check for a plain UTF-8 continuation byte. -/
def isUtf8Cont (b : Nat) : Bool := decide (0x80 ≤ b ∧ b ≤ 0xBF)

/-- Range check for the first continuation byte after lead byte `b`
(the lead bytes `0xE0`, `0xED`, `0xF0`, `0xF4` restrict it further, ruling
out overlong encodings, surrogates and values above U+10FFFF). -/
def isUtf8First (b c1 : Nat) : Bool :=
  if b = 0xE0 then decide (0xA0 ≤ c1 ∧ c1 ≤ 0xBF)
  else if b = 0xED then decide (0x80 ≤ c1 ∧ c1 ≤ 0x9F)
  else if b = 0xF0 then decide (0x90 ≤ c1 ∧ c1 ≤ 0xBF)
  else if b = 0xF4 then decide (0x80 ≤ c1 ∧ c1 ≤ 0x8F)
  else isUtf8Cont c1

/-- Model of `String::from_utf8_lossy` at the character level: decode
UTF-8, replacing each maximal subpart of an ill-formed subsequence with
U+FFFD, as the Rust standard library does.  Every step consumes at least
one byte, so the `fuel` parameter (instantiated with the byte count in
`from_utf8_lossy`) never runs out; it only makes the recursion structural. -/
def lossyAux : Nat → List Nat → List Char
  | 0, _ => []
  | _ + 1, [] => []
  | fuel + 1, b :: rest =>
    if b < 0x80 then
      Char.ofNat b :: lossyAux fuel rest
    else if b < 0xC2 then
      replChar :: lossyAux fuel rest
    else if b < 0xE0 then
      match rest with
      | [] => [replChar]
      | c1 :: rest1 =>
        if isUtf8Cont c1 then
          Char.ofNat ((b - 0xC0) * 0x40 + (c1 - 0x80)) :: lossyAux fuel rest1
        else
          replChar :: lossyAux fuel rest
    else if b < 0xF0 then
      match rest with
      | [] => [replChar]
      | c1 :: rest1 =>
        if isUtf8First b c1 then
          match rest1 with
          | [] => [replChar]
          | c2 :: rest2 =>
            if isUtf8Cont c2 then
              Char.ofNat ((b - 0xE0) * 0x1000 + (c1 - 0x80) * 0x40 + (c2 - 0x80))
                :: lossyAux fuel rest2
            else
              replChar :: lossyAux fuel rest1
        else
          replChar :: lossyAux fuel rest
    else if b < 0xF5 then
      match rest with
      | [] => [replChar]
      | c1 :: rest1 =>
        if isUtf8First b c1 then
          match rest1 with
          | [] => [replChar]
          | c2 :: rest2 =>
            if isUtf8Cont c2 then
              match rest2 with
              | [] => [replChar]
              | c3 :: rest3 =>
                if isUtf8Cont c3 then
                  Char.ofNat ((b - 0xF0) * 0x40000 + (c1 - 0x80) * 0x1000
                      + (c2 - 0x80) * 0x40 + (c3 - 0x80)) :: lossyAux fuel rest3
                else
                  replChar :: lossyAux fuel rest2
            else
              replChar :: lossyAux fuel rest1
        else
          replChar :: lossyAux fuel rest
    else
      replChar :: lossyAux fuel rest

/-- `String::from_utf8_lossy` on a byte list, producing a `String`. -/
def from_utf8_lossy (bytes : List Nat) : String := ⟨lossyAux bytes.length bytes⟩

/-- Rust's `char::is_whitespace`: the Unicode `White_Space` property. -/
def isRustWhitespace (c : Char) : Bool :=
  c.toNat ∈ ([0x09, 0x0A, 0x0B, 0x0C, 0x0D, 0x20, 0x85, 0xA0, 0x1680,
    0x2000, 0x2001, 0x2002, 0x2003, 0x2004, 0x2005, 0x2006, 0x2007,
    0x2008, 0x2009, 0x200A, 0x2028, 0x2029, 0x202F, 0x205F, 0x3000] : List Nat)

/-- Rust's `str::trim`: drop `White_Space` characters from both ends. -/
def rustTrim (s : String) : String :=
  ⟨((s.data.dropWhile isRustWhitespace).reverse.dropWhile isRustWhitespace).reverse⟩

/-- Split a character list at every `'.'` (the pieces between dots, so a
list with one more element than there are dots). -/
def splitDots : List Char → List (List Char)
  | [] => [[]]
  | c :: cs =>
    if c = '.' then
      [] :: splitDots cs
    else
      match splitDots cs with
      | [] => [[c]]
      | p :: ps => (c :: p) :: ps

/-- `Path::extension()` of a file name (model of the Rust standard
library's rule): `none` when the name contains no dot, or when its only dot
is a leading dot; otherwise the portion after the final dot. -/
def rustExtension (name : String) : Option String :=
  match splitDots name.data with
  | [] => none
  | [_] => none
  | [[], _] => none
  | parts => some ⟨parts.getLastD []⟩

/-- One candidate file offered to the per-file filter chain of `run_app`.
The fields record the path-derived data and the outcome of each system
call the loop body performs on the file. -/
structure Candidate where
  /-- `path.file_name()`: the final path component, if any. -/
  fileName : Option String
  /-- `rel_path.display().to_string()`: the path relative to the source
  root (before the backslash replacement applied by the loop). -/
  relPathDisplay : String
  /-- `path.canonicalize()` outcome: `none` models `Err`. -/
  canonResult : Option String
  /-- `path.extension()` (as UTF-8, via `to_str`). -/
  ext : Option String
  /-- `path.metadata()` outcome: `some size` on success, `none` on `Err`. -/
  metaSize : Option Nat
  /-- Outcome of the open-and-read probe performed by `is_text_file`. -/
  sniff : ReadOutcome
  /-- `fs::read(path)` outcome: the file's full bytes, or `none` on `Err`. -/
  readResult : Option (List Nat)
deriving DecidableEq, Repr

/-- The distinct `continue` sites of the per-file loop in `run_app`, in
source order. -/
inductive SkipReason where
  | selfName : SkipReason
  | selfPath : SkipReason
  | ignoredExt : SkipReason
  | tooLarge : SkipReason
  | notText : SkipReason
  | readErr : SkipReason
  | blank : SkipReason
deriving DecidableEq, Repr

/-- The extension filter: `if let Some(ext) = path.extension()`, skip when
`"." + lowercased ext` is in the ignored-extensions table. -/
def ext_skips (ext : Option String) : Bool :=
  match ext with
  | some e => get_ignore_extensions.contains ("." ++ toLowerStr e)
  | none => false

/-- Rust's `str::replace(from, to)` for the single-character pattern the
program uses (`"\\"` → `"/"`): map the character everywhere. -/
def replaceChar (s : String) (pat sub : Char) : String :=
  ⟨s.data.map (fun c => if c = pat then sub else c)⟩

/-- The size cap: `if let Ok(meta) = path.metadata()`, skip when
`meta.len() > 1024 * 1024`; a metadata error imposes no cap. -/
def size_skips (metaSize : Option Nat) : Bool :=
  match metaSize with
  | some sz => decide (sz > 1024 * 1024)
  | none => false

/-- The Markdown section the loop appends for one emitted file: four
`writeln!` calls, each terminating its output with a newline
(`"## File: {}\n"`, `"{}"` with the fence and tag, `"{}"` with the
content, `"{}\n"` with the closing fence). -/
def emit_section (pathStr tag content : String) : String :=
  "## File: " ++ pathStr ++ "\n\n" ++ "```" ++ tag ++ "\n"
    ++ content ++ "\n" ++ "```\n\n"

/-- The body of the `for entry in walker` loop of `run_app` for one file
entry (directories were already skipped): apply, in order, the
self-exclusion by name, the self-exclusion by canonical path, the
extension filter, the size cap, the binary sniff, the full read, and the
emptiness filter; on survival produce the Markdown section. `out_name` is
`output_path.file_name().unwrap_or_default()` and `out_abs` is
`output_path.canonicalize().unwrap_or(output_path)`. -/
def processCandidate (out_name out_abs : String) (c : Candidate) :
    Except SkipReason String :=
  if c.fileName = some out_name then
    .error .selfName
  else if (match c.canonResult with
           | some abs => abs = out_abs
           | none => false : Bool) then
    .error .selfPath
  else if ext_skips c.ext then
    .error .ignoredExt
  else if size_skips c.metaSize then
    .error .tooLarge
  else if ¬ is_text_file c.sniff then
    .error .notText
  else
    match c.readResult with
    | none => .error .readErr
    | some bytes =>
      let content := from_utf8_lossy bytes
      if (rustTrim content).isEmpty then
        .error .blank
      else
        let path_str := replaceChar c.relPathDisplay '\x5c' '/'
        let file_ext := toLowerStr (c.ext.getD "")
        .ok (emit_section path_str file_ext content)

mutual
/-- A filesystem tree: a file, or a directory with its children (in the
order the operating system lists them).  Names are final path components. -/
inductive FSTree where
  | file (name : String) : FSTree
  | dir (name : String) (children : FSForest) : FSTree

/-- A list of sibling subtrees. -/
inductive FSForest where
  | nil : FSForest
  | cons (t : FSTree) (ts : FSForest) : FSForest
end

mutual
/-- The walk `WalkDir::new(&source_path).into_iter().filter_entry(|e|
!is_hidden_or_ignored(e))` restricted to one subtree, composed with the
loop's `if path.is_dir() { continue; }`: the relative paths (component
lists, relative to the subtree's parent) of the file entries that reach
the per-file filters.  An excluded directory is pruned whole: `filter_entry`
never descends into it. -/
def walkFilesRel : FSTree → List (List String)
  | .file n => if is_hidden_or_ignored ⟨n, false⟩ then [] else [[n]]
  | .dir n cs =>
    if is_hidden_or_ignored ⟨n, true⟩ then []
    else (walkFilesForest cs).map (fun p => n :: p)

/-- `walkFilesRel` over sibling subtrees, in order. -/
def walkFilesForest : FSForest → List (List String)
  | .nil => []
  | .cons t ts => walkFilesRel t ++ walkFilesForest ts
end

/-- The full walk from the source root: `filter_entry` also tests the root
entry itself (pruning everything when it is excluded), and the loop's
`strip_prefix(&source_path)` removes the root from every yielded path, so
yielded paths are the component lists relative to the root. -/
def walkFilesRoot (rootName : String) (children : FSForest) :
    List (List String) :=
  if is_hidden_or_ignored ⟨rootName, true⟩ then [] else walkFilesForest children

/-- `Path::display()` of a relative path given by its components, followed
by nothing: components joined with the platform separator (modelled as
`/`). -/
def displayPath (p : List String) : String := String.intercalate "/" p

/-- Per-file system-call outcomes, supplied by the environment: the tree
alone does not determine them. -/
structure FileInfo where
  canonResult : Option String
  metaSize : Option Nat
  sniff : ReadOutcome
  readResult : Option (List Nat)

/-- Build the `Candidate` the loop body sees for the file at relative path
`p`: the file name is the last component, the extension is derived from it
by `Path::extension()`, and the system-call outcomes come from the
environment oracle. -/
def mkCandidate (p : List String) (info : FileInfo) : Candidate :=
  { fileName := p.getLast?
    relPathDisplay := displayPath p
    canonResult := info.canonResult
    ext := (p.getLast?).bind rustExtension
    metaSize := info.metaSize
    sniff := info.sniff
    readResult := info.readResult }

/-- The sections of the output document, paired with the relative path of
the file each came from: the walk's files, filtered and formatted by the
per-file chain, in traversal order. -/
def run_sections (rootName : String) (children : FSForest)
    (info : List String → FileInfo) (out_name out_abs : String) :
    List (List String × String) :=
  (walkFilesRoot rootName children).filterMap fun p =>
    match processCandidate out_name out_abs (mkCandidate p (info p)) with
    | .ok s => some (p, s)
    | .error _ => none

/-- The full text written to the output file (`BufWriter` contents at the
final flush): the concatenation of the emitted sections. -/
def run_output (rootName : String) (children : FSForest)
    (info : List String → FileInfo) (out_name out_abs : String) : String :=
  String.join ((run_sections rootName children info out_name out_abs).map (·.2))

/-- The parsed command line (`struct Args`). -/
structure Args where
  path : String
  save_inside : Bool
deriving DecidableEq, Repr

/-- `parse_args`: `env::args()` yields the program name first, so fewer
than two elements means the path argument is missing and yields `None`;
otherwise the path is `args[1]` and `-i` anywhere in the list sets
`save_inside`. -/
def parse_args (args : List String) : Option Args :=
  if args.length < 2 then
    none
  else
    some ⟨args.getD 1 "", args.any (fun arg => arg = "-i")⟩

/-- The canonicalized source path, as `run_app` observes it: its display
form, its final component (`file_name()`, `none` for e.g. a root path),
its parent directory's display form (`parent()`), and whether `is_dir()`
holds. -/
structure SrcPath where
  display : String
  fileNameComp : Option String
  parentDir : Option String
  isDir : Bool
deriving DecidableEq, Repr

/-- `Path::join` of a directory and a (relative) file name. -/
def joinPath (dir name : String) : String := dir ++ "/" ++ name

/-- The output file's name: `format!("{}.md", folder_name)` where
`folder_name` is the source's final component, or the fixed placeholder
`"项目代码文档"` when the source path has none. -/
def output_file_name (fileNameComp : Option String) : String :=
  (fileNameComp.getD "项目代码文档") ++ ".md"

/-- The output path computed by `run_app`: inside the source directory
when it is a directory and `-i` was given; otherwise into the source's
parent (`parent().unwrap_or(&source_path)`), for directories and files
alike. -/
def output_path (src : SrcPath) (save_inside : Bool) : String :=
  let file_name := output_file_name src.fileNameComp
  if src.isDir then
    if save_inside then
      joinPath src.display file_name
    else
      joinPath (src.parentDir.getD src.display) file_name
  else
    joinPath (src.parentDir.getD src.display) file_name

/-- `output_path.canonicalize().unwrap_or_else(|_| output_path.clone())`:
the canonical form when canonicalization succeeds, the plain output path
otherwise. -/
def out_file_abs (canonOut : Option String) (outPath : String) : String :=
  canonOut.getD outPath

/-- Everything the filesystem decides during one run, supplied as an
oracle: the outcome of canonicalizing the input path, whether
`File::create` succeeds, the outcome of canonicalizing the output path,
the directory tree under the source root, and the per-file system-call
outcomes. -/
structure AppEnv where
  srcCanon : Option SrcPath
  createOk : Bool
  outCanon : Option String
  children : FSForest
  info : List String → FileInfo

/-- `run_app`, end to end: `Except Unit` mirrors `io::Result<()>` and the
payload records the created output file (path and final contents), `none`
when the run returned before creating one.  A missing path argument
returns `Ok` at once; a failed canonicalization of the input or a failed
`File::create` is an `Err` propagated by `?`. -/
def run_app (args : List String) (env : AppEnv) :
    Except Unit (Option (String × String)) :=
  match parse_args args with
  | none => .ok none
  | some a =>
    match env.srcCanon with
    | none => .error ()
    | some src =>
      let outPath := output_path src a.save_inside
      if env.createOk then
        let out_name := output_file_name src.fileNameComp
        let out_abs := out_file_abs env.outCanon outPath
        let rootName := src.fileNameComp.getD src.display
        .ok (some (outPath, run_output rootName env.children env.info out_name out_abs))
      else
        .error ()

/-- `main`: exit code 0 when `run_app` returns `Ok`, 1 when it returns
`Err`. -/
def main_exit_code (r : Except Unit (Option (String × String))) : Nat :=
  match r with
  | .ok _ => 0
  | .error _ => 1

/-- The section shape asserted by the emission claim, following its
wording: heading line, blank line, tagged opening fence, the content with
nothing else added between it and the closing fence, closing fence, blank
line. -/
def section_claimed (pathStr tag content : String) : String :=
  "## File: " ++ pathStr ++ "\n\n" ++ "```" ++ tag ++ "\n"
    ++ content ++ "```\n\n"

/-! ## Helper lemmas -/

mutual
/-- Every directory component (every component but the last) of a path
yielded by the walk of one subtree passed the classifier. -/
theorem walkFilesRel_dirs_ok : ∀ (t : FSTree) (p : List String),
    p ∈ walkFilesRel t → ∀ d ∈ p.dropLast, is_hidden_or_ignored ⟨d, true⟩ = false
  | .file n, p, hp => by
    by_cases h : is_hidden_or_ignored ⟨n, false⟩ <;> simp [walkFilesRel, h] at hp
    subst hp
    simp
  | .dir n cs, p, hp => by
    by_cases h : is_hidden_or_ignored ⟨n, true⟩
    · simp [walkFilesRel, h] at hp
    · simp [walkFilesRel, h, List.mem_map] at hp
      obtain ⟨q, hq, rfl⟩ := hp
      intro d hd
      cases q with
      | nil => simp at hd
      | cons a as =>
        rw [show (n :: a :: as).dropLast = n :: (a :: as).dropLast from rfl] at hd
        rcases List.mem_cons.mp hd with rfl | hd2
        · exact Bool.not_eq_true _ ▸ eq_false_of_ne_true (by simpa using h)
        · exact walkFilesForest_dirs_ok cs (a :: as) hq d hd2

/-- `walkFilesRel_dirs_ok` for a forest of sibling subtrees. -/
theorem walkFilesForest_dirs_ok : ∀ (ts : FSForest) (p : List String),
    p ∈ walkFilesForest ts → ∀ d ∈ p.dropLast, is_hidden_or_ignored ⟨d, true⟩ = false
  | .nil, p, hp => by simp [walkFilesForest] at hp
  | .cons t ts, p, hp => by
    rcases List.mem_append.mp hp with h1 | h2
    · exact walkFilesRel_dirs_ok t p h1
    · exact walkFilesForest_dirs_ok ts p h2
end

/-- The canonical-path self-exclusion test is false when the candidate's
canonicalization outcome is not the output file's resolved path. -/
theorem canon_match_false {c : Candidate} {a : String}
    (h : c.canonResult ≠ some a) :
    (match c.canonResult with
     | some abs => decide (abs = a)
     | none => false) = false := by
  cases hcc : c.canonResult with
  | none => rfl
  | some x =>
    simp only [decide_eq_false_iff_not]
    intro hx
    exact h (hcc.trans (by rw [hx]))

/-- The root-level walk inherits the pruning property. -/
theorem walkFilesRoot_dirs_ok (rootName : String) (cs : FSForest)
    (p : List String) (hp : p ∈ walkFilesRoot rootName cs) :
    ∀ d ∈ p.dropLast, is_hidden_or_ignored ⟨d, true⟩ = false := by
  by_cases h : is_hidden_or_ignored ⟨rootName, true⟩ <;>
    simp only [walkFilesRoot, h, if_true, if_false] at hp
  · simp at hp
  · exact walkFilesForest_dirs_ok cs p hp

/-- Every section of the output comes from a path yielded by the walk. -/
theorem run_sections_sub (rootName : String) (cs : FSForest)
    (info : List String → FileInfo) (out_name out_abs : String)
    (p : List String) (s : String)
    (hps : (p, s) ∈ run_sections rootName cs info out_name out_abs) :
    p ∈ walkFilesRoot rootName cs := by
  obtain ⟨q, hq, hf⟩ := List.mem_filterMap.mp hps
  revert hf
  cases processCandidate out_name out_abs (mkCandidate q (info q)) <;> intro hf <;>
    simp at hf
  exact hf.1 ▸ hq

/-! ## Claims -/

/-- C1: a directory whose name starts with a leading dot, has length `> 1`
and is not exactly `".github"` is excluded by the Entry Classifier; a
directory whose name exactly matches an ignored-directories entry is
excluded; `".github"` itself is not excluded; and the traversal prunes
excluded directories entirely, so no walked path — and hence no emitted
section — passes through a directory the classifier excludes. -/
theorem claim_C1_hidden_and_ignored_dirs_pruned :
    (∀ name, startsWithChar name '.' = true → name.length > 1 → name ≠ ".github" →
      is_hidden_or_ignored ⟨name, true⟩ = true)
    ∧ (∀ name, name ∈ get_ignore_dirs → is_hidden_or_ignored ⟨name, true⟩ = true)
    ∧ is_hidden_or_ignored ⟨".github", true⟩ = false
    ∧ (∀ rootName cs p, p ∈ walkFilesRoot rootName cs →
        ∀ d ∈ p.dropLast, is_hidden_or_ignored ⟨d, true⟩ = false)
    ∧ (∀ rootName cs info out_name out_abs p s,
        (p, s) ∈ run_sections rootName cs info out_name out_abs →
        ∀ d ∈ p.dropLast, is_hidden_or_ignored ⟨d, true⟩ = false) := by
  refine ⟨?_, ?_, by decide, ?_, ?_⟩
  · intro name h1 h2 h3
    simp [is_hidden_or_ignored, h1, h2, h3]
  · intro name hmem
    simp only [is_hidden_or_ignored, if_true]
    split
    · rfl
    · simpa using List.elem_eq_true_of_mem hmem
  · exact walkFilesRoot_dirs_ok
  · intro rootName cs info out_name out_abs p s hps
    exact walkFilesRoot_dirs_ok rootName cs p
      (run_sections_sub rootName cs info out_name out_abs p s hps)

/-- Witness for C1 at concrete inputs: `".secret"` and `"node_modules"`
are excluded, and in a concrete run the emitted path `src/main.txt` only
passes through the non-excluded directory `"src"`. -/
theorem claim_C1_witness :
    is_hidden_or_ignored ⟨".secret", true⟩ = true
    ∧ is_hidden_or_ignored ⟨"node_modules", true⟩ = true
    ∧ is_hidden_or_ignored ⟨"src", true⟩ = false :=
  ⟨claim_C1_hidden_and_ignored_dirs_pruned.1 ".secret" (by decide) (by decide) (by decide),
   claim_C1_hidden_and_ignored_dirs_pruned.2.1 "node_modules" (by decide),
   claim_C1_hidden_and_ignored_dirs_pruned.2.2.2.2 "proj"
     (.cons (.dir "src" (.cons (.file "main.txt") .nil)) .nil)
     (fun _ => ⟨some "/p/x", some 5, .ok [104, 105], some [104, 105]⟩)
     "proj.md" "/p/proj.md" ["src", "main.txt"]
     "## File: src/main.txt\n\n```txt\nhi\n```\n\n"
     (by decide) "src" (by decide)⟩

/-- C3: the Text Sniffer returns "text" when the read yields zero bytes,
returns "text" iff no read byte is the null byte when at least one byte was
read, and returns "not text" when the open or the read fails. -/
theorem claim_C3_text_sniffer :
    is_text_file (.ok []) = true
    ∧ (∀ bytes : List Nat, bytes ≠ [] →
        (is_text_file (.ok bytes) = true ↔ 0 ∉ bytes))
    ∧ is_text_file .openErr = false
    ∧ is_text_file .readErr = false := by
  refine ⟨rfl, ?_, rfl, rfl⟩
  intro bytes hne
  simp [is_text_file, hne, List.elem_iff]

/-- Witness for C3 at concrete reads: one null byte among the read bytes
makes the sniffer say "not text"; none makes it say "text". -/
theorem claim_C3_witness :
    is_text_file (.ok [104, 0]) = false ∧ is_text_file (.ok [104, 105]) = true := by
  have h1 := claim_C3_text_sniffer.2.1 [104, 0] (by decide)
  have h2 := claim_C3_text_sniffer.2.1 [104, 105] (by decide)
  constructor
  · have : ¬ is_text_file (.ok [104, 0]) = true := fun h => (h1.mp h) (by decide)
    simpa using this
  · exact h2.mpr (by decide)

/-- C4: a candidate whose file name equals the output file's name is
skipped with the first skip reason, regardless of every other attribute; a
candidate whose canonicalized path equals the output file's resolved path
is skipped next; the output path's resolved form falls back to the plain
output path when its canonicalization fails; and consequently no emitted
section can come from a file named like the output file. -/
theorem claim_C4_self_exclusion :
    (∀ out_name out_abs c, c.fileName = some out_name →
      processCandidate out_name out_abs c = .error .selfName)
    ∧ (∀ out_name out_abs c, c.fileName ≠ some out_name →
        c.canonResult = some out_abs →
        processCandidate out_name out_abs c = .error .selfPath)
    ∧ (∀ outPath, out_file_abs none outPath = outPath)
    ∧ (∀ canon outPath, out_file_abs (some canon) outPath = canon)
    ∧ (∀ rootName cs info out_name out_abs p s,
        (p, s) ∈ run_sections rootName cs info out_name out_abs →
        p.getLast? ≠ some out_name) := by
  have hname : ∀ out_name out_abs c, c.fileName = some out_name →
      processCandidate out_name out_abs c = .error .selfName := by
    intro o a c h
    simp [processCandidate, h]
  refine ⟨hname, ?_, fun _ => rfl, fun _ _ => rfl, ?_⟩
  · intro o a c h1 h2
    simp [processCandidate, h1, h2]
  · intro rootName cs info o a p s hps hlast
    obtain ⟨q, hq, hf⟩ := List.mem_filterMap.mp hps
    revert hf
    cases hpc : processCandidate o a (mkCandidate q (info q)) <;> intro hf <;> simp at hf
    obtain ⟨rfl, rfl⟩ := hf
    rw [hname o a (mkCandidate q (info q)) hlast] at hpc
    exact Except.noConfusion hpc

/-- Witness for C4 at concrete inputs: the previous run's output file
(matching name, and separately a matching canonical path under a different
name) is skipped. -/
theorem claim_C4_witness :
    processCandidate "proj.md" "/p/proj.md"
      ⟨some "proj.md", "proj.md", some "/p/proj.md", some "md", some 3, .ok [104], some [104]⟩
      = .error .selfName
    ∧ processCandidate "proj.md" "/p/proj.md"
      ⟨some "other.txt", "other.txt", some "/p/proj.md", some "txt", some 3, .ok [104], some [104]⟩
      = .error .selfPath
    ∧ out_file_abs none "/p/proj.md" = "/p/proj.md" :=
  ⟨claim_C4_self_exclusion.1 "proj.md" "/p/proj.md" _ (by decide),
   claim_C4_self_exclusion.2.1 "proj.md" "/p/proj.md" _ (by decide) (by decide),
   claim_C4_self_exclusion.2.2.1 "/p/proj.md"⟩

/-- C6: the size cap triggers exactly when the reported size exceeds
1,048,576 bytes — in particular not at exactly 1,048,576 and yes at
1,048,577 — and, for a candidate passing the earlier filters, the chain
skips with the size reason precisely when the cap triggers. -/
theorem claim_C6_size_cap :
    (∀ sz, size_skips (some sz) = true ↔ sz > 1048576)
    ∧ size_skips (some 1048576) = false
    ∧ size_skips (some 1048577) = true
    ∧ (∀ out_name out_abs c, c.fileName ≠ some out_name →
        c.canonResult ≠ some out_abs → ext_skips c.ext = false →
        (processCandidate out_name out_abs c = .error .tooLarge ↔
          size_skips c.metaSize = true)) := by
  refine ⟨?_, by decide, by decide, ?_⟩
  · intro sz
    simp [size_skips]
  · intro o a c h1 h2 h3
    have hc2 := canon_match_false h2
    constructor
    · intro h
      by_contra hs
      simp [processCandidate, h1, hc2, h3, hs] at h
      revert h
      split
      · simp
      · cases c.readResult <;> simp
        split <;> simp
    · intro hs
      simp [processCandidate, h1, hc2, h3, hs]

/-- Witness for C6 at the boundary: with all other filters passing, a
1,048,577-byte candidate is skipped as too large and a 1,048,576-byte one
is not. -/
theorem claim_C6_witness :
    processCandidate "proj.md" "/p/proj.md"
      ⟨some "a.txt", "a.txt", some "/p/a.txt", some "txt", some 1048577, .ok [104], some [104]⟩
      = .error .tooLarge
    ∧ size_skips (some 1048576) = false := by
  constructor
  · exact (claim_C6_size_cap.2.2.2 "proj.md" "/p/proj.md"
      ⟨some "a.txt", "a.txt", some "/p/a.txt", some "txt", some 1048577, .ok [104], some [104]⟩
      (by decide) (by decide) (by decide)).mpr (by decide)
  · exact claim_C6_size_cap.2.1

/-- C9: a metadata failure does not skip the file: the size cap imposes
nothing when the size is unknown, and a candidate whose metadata call
failed but which passes the other filters is still emitted. -/
theorem claim_C9_metadata_failure :
    size_skips none = false
    ∧ (∀ out_name out_abs c bytes, c.metaSize = none →
        c.fileName ≠ some out_name → c.canonResult ≠ some out_abs →
        ext_skips c.ext = false → is_text_file c.sniff = true →
        c.readResult = some bytes →
        (rustTrim (from_utf8_lossy bytes)).isEmpty = false →
        processCandidate out_name out_abs c =
          .ok (emit_section (replaceChar c.relPathDisplay '\x5c' '/')
            (toLowerStr (c.ext.getD "")) (from_utf8_lossy bytes))) := by
  refine ⟨rfl, ?_⟩
  intro o a c bytes hm h1 h2 h3 h4 h5 h6
  have hc2 := canon_match_false h2
  simp [processCandidate, h1, hc2, h3, hm, size_skips, h4, h5, h6]

/-- Witness for C9: a concrete candidate with a failed metadata call is
emitted. -/
theorem claim_C9_witness :
    processCandidate "proj.md" "/p/proj.md"
      ⟨some "a.txt", "a.txt", some "/p/a.txt", some "txt", none, .ok [104], some [104]⟩
      = .ok "## File: a.txt\n\n```txt\nh\n```\n\n" := by
  have := claim_C9_metadata_failure.2 "proj.md" "/p/proj.md"
    ⟨some "a.txt", "a.txt", some "/p/a.txt", some "txt", none, .ok [104], some [104]⟩
    [104] rfl (by decide) (by decide) (by decide) (by decide) rfl (by decide)
  simpa using this

/-- C7: with fewer than two program arguments, `run_app` returns `Ok`
immediately without creating an output file, for every filesystem
environment, and the process exit code is 0. -/
theorem claim_C7_missing_arg (argv : List String) (h : argv.length < 2)
    (env : AppEnv) :
    run_app argv env = .ok none ∧ main_exit_code (run_app argv env) = 0 := by
  have hp : parse_args argv = none := by simp [parse_args, h]
  exact ⟨by simp [run_app, hp], by simp [run_app, hp, main_exit_code]⟩

/-- Witness for C7: a run invoked with only the program name produces no
output and exits 0. -/
theorem claim_C7_witness :
    run_app ["code2md"]
        ⟨none, false, none, .nil, fun _ => ⟨none, none, .openErr, none⟩⟩ = .ok none
    ∧ main_exit_code (run_app ["code2md"]
        ⟨none, false, none, .nil, fun _ => ⟨none, none, .openErr, none⟩⟩) = 0 :=
  claim_C7_missing_arg ["code2md"] (by decide)
    ⟨none, false, none, .nil, fun _ => ⟨none, none, .openErr, none⟩⟩

/-- C5: the output file is named `<base-name>.md` with a fixed placeholder
base when the input has no file-name component; it is placed inside the
input directory when the input is a directory and the flag is set, in the
input's parent (or the input itself when parentless) when the input is a
directory and the flag is unset, and in the parent directory when the
input is a file; and a successful run creates its output file at exactly
that path. -/
theorem claim_C5_output_location :
    (∀ n : String, output_file_name (some n) = n ++ ".md")
    ∧ output_file_name none = "项目代码文档" ++ ".md"
    ∧ (∀ src : SrcPath, src.isDir = true →
        output_path src true = joinPath src.display (output_file_name src.fileNameComp))
    ∧ (∀ src : SrcPath, src.isDir = true →
        output_path src false =
          joinPath (src.parentDir.getD src.display) (output_file_name src.fileNameComp))
    ∧ (∀ (src : SrcPath) (d : String) (flag : Bool), src.isDir = false →
        src.parentDir = some d →
        output_path src flag = joinPath d (output_file_name src.fileNameComp))
    ∧ (∀ (argv : List String) (env : AppEnv) (a : Args) (src : SrcPath),
        parse_args argv = some a → env.srcCanon = some src → env.createOk = true →
        ∃ contents, run_app argv env = .ok (some (output_path src a.save_inside, contents))) := by
  refine ⟨fun _ => rfl, rfl, ?_, ?_, ?_, ?_⟩
  · intro src h
    simp [output_path, h]
  · intro src h
    simp [output_path, h]
  · intro src d flag h hd
    cases flag <;> simp [output_path, h, hd]
  · intro argv env a src hp hs hc
    refine ⟨run_output (src.fileNameComp.getD src.display) env.children env.info
      (output_file_name src.fileNameComp)
      (out_file_abs env.outCanon (output_path src a.save_inside)), ?_⟩
    simp [run_app, hp, hs, hc]

/-- Witness for C5 at concrete paths: placement inside, beside, next to a
parentless directory, and beside a file. -/
theorem claim_C5_witness :
    output_file_name (some "proj") = "proj.md"
    ∧ output_path ⟨"/home/u/proj", some "proj", some "/home/u", true⟩ true
        = "/home/u/proj/proj.md"
    ∧ output_path ⟨"/home/u/proj", some "proj", some "/home/u", true⟩ false
        = "/home/u/proj.md"
    ∧ output_path ⟨"/a/b/f.rs", some "f.rs", some "/a/b", false⟩ false
        = "/a/b/f.rs.md" := by
  refine ⟨claim_C5_output_location.1 "proj", ?_, ?_, ?_⟩
  · have := claim_C5_output_location.2.2.1 ⟨"/home/u/proj", some "proj", some "/home/u", true⟩ rfl
    simpa using this
  · have := claim_C5_output_location.2.2.2.1 ⟨"/home/u/proj", some "proj", some "/home/u", true⟩ rfl
    simpa using this
  · have := claim_C5_output_location.2.2.2.2.1 ⟨"/a/b/f.rs", some "f.rs", some "/a/b", false⟩
      "/a/b" false rfl rfl
    simpa using this

/-- No entry of the ignored-file-names table starts with a dot, so a
lowercased dotted name is never in it. -/
theorem dotted_not_in_ignore_filenames (name : String)
    (h : startsWithChar name '.' = true) :
    get_ignore_filenames.contains (toLowerStr name) = false := by
  cases hcon : get_ignore_filenames.contains (toLowerStr name) with
  | false => rfl
  | true =>
    exfalso
    have hmem : toLowerStr name ∈ get_ignore_filenames :=
      List.mem_of_elem_eq_true hcon
    have hdata : (toLowerStr name).data.head? = some '.' := by
      cases hd : name.data with
      | nil => simp [startsWithChar, hd] at h
      | cons c0 cs =>
        have hc0 : c0 = '.' := by simpa [startsWithChar, hd] using h
        simp [toLowerStr, hd, hc0]
    simp only [get_ignore_filenames, List.mem_cons, List.not_mem_nil, or_false] at hmem
    rcases hmem with h'|h'|h'|h'|h'|h'|h'|h'|h'|h'|h'|h' <;> rw [h'] at hdata <;>
      revert hdata <;> decide

/-- C10: the leading-dot rule applies only to directories — a file entry
is excluded only through the ignored-file-names table, a dotted file name
is never excluded (no table entry starts with a dot), the walk yields a
dotted file, and a concrete `.gitignore` candidate passing the per-file
filters is emitted with an empty language tag. -/
theorem claim_C10_dot_files_not_hidden :
    (∀ name, is_hidden_or_ignored ⟨name, false⟩ = true →
      get_ignore_filenames.contains (toLowerStr name) = true)
    ∧ (∀ name, startsWithChar name '.' = true →
        is_hidden_or_ignored ⟨name, false⟩ = false)
    ∧ (∀ name, startsWithChar name '.' = true →
        walkFilesRel (.file name) = [[name]])
    ∧ processCandidate "proj.md" "/p/proj.md"
        (mkCandidate [".gitignore"] ⟨some "/p/.gitignore", some 10, .ok [42], some [42]⟩)
        = .ok ("## File: .gitignore\n\n```\n*\n```\n\n") := by
  have hnot : ∀ name, startsWithChar name '.' = true →
      is_hidden_or_ignored ⟨name, false⟩ = false := by
    intro name h
    simpa [is_hidden_or_ignored] using dotted_not_in_ignore_filenames name h
  refine ⟨?_, hnot, ?_, by decide⟩
  · intro name h
    simpa [is_hidden_or_ignored] using h
  · intro name h
    simp [walkFilesRel, hnot name h]

/-- Witness for C10 at the concrete name `.gitignore`. -/
theorem claim_C10_witness :
    is_hidden_or_ignored ⟨".gitignore", false⟩ = false
    ∧ walkFilesRel (.file ".gitignore") = [[".gitignore"]] :=
  ⟨claim_C10_dot_files_not_hidden.2.1 ".gitignore" (by decide),
   claim_C10_dot_files_not_hidden.2.2.1 ".gitignore" (by decide)⟩

/-- Counterexample to C2 as stated: for a two-byte file with content
`x` followed by a newline, the writer appends one more newline after the
content, so the code block carries an extra blank line before the closing
fence and the section differs from the claimed shape with nothing added
between the content and the fence. -/
theorem claim_C2_cex :
    processCandidate "proj.md" "/p/proj.md"
        ⟨some "a.txt", "a.txt", some "/p/a.txt", some "txt", some 2,
          .ok [120, 10], some [120, 10]⟩
      = .ok "## File: a.txt\n\n```txt\nx\n\n```\n\n"
    ∧ from_utf8_lossy [120, 10] = "x\n"
    ∧ "## File: a.txt\n\n```txt\nx\n\n```\n\n"
        ≠ section_claimed "a.txt" "txt" "x\n" := by
  decide

/-- C2 (amended): every emitted section is exactly the heading line
`## File: <relative path, separators normalized to forward slashes>`, a
blank line, an opening fence tagged with the lowercased extension (empty
string if none), the lossy-decoded content, one newline appended by the
line-writing call, then the closing fence followed by a blank line. -/
theorem claim_C2_emitted_section_shape (out_name out_abs : String)
    (c : Candidate) (s : String)
    (h : processCandidate out_name out_abs c = .ok s) :
    ∃ bytes, c.readResult = some bytes ∧
      s = "## File: " ++ replaceChar c.relPathDisplay '\x5c' '/' ++ "\n\n"
        ++ "```" ++ toLowerStr (c.ext.getD "") ++ "\n"
        ++ from_utf8_lossy bytes ++ "\n" ++ "```\n\n" := by
  unfold processCandidate at h
  split at h
  · simp at h
  split at h
  · simp at h
  split at h
  · simp at h
  split at h
  · simp at h
  split at h
  · simp at h
  cases hr : c.readResult with
  | none => rw [hr] at h; simp at h
  | some bytes =>
    rw [hr] at h
    simp only at h
    split at h
    · simp at h
    · refine ⟨bytes, rfl, ?_⟩
      have hs := Except.ok.inj h
      rw [← hs]
      simp [emit_section]

/-- Witness for the amended C2 at a concrete emitted file. -/
theorem claim_C2_witness :
    ∃ bytes,
      (⟨some "a.txt", "a.txt", some "/p/a.txt", some "txt", some 1, .ok [120],
        some [120]⟩ : Candidate).readResult = some bytes ∧
      "## File: a.txt\n\n```txt\nx\n```\n\n"
        = "## File: " ++ replaceChar "a.txt" '\x5c' '/' ++ "\n\n"
          ++ "```" ++ toLowerStr "txt" ++ "\n"
          ++ from_utf8_lossy bytes ++ "\n" ++ "```\n\n" :=
  claim_C2_emitted_section_shape "proj.md" "/p/proj.md"
    ⟨some "a.txt", "a.txt", some "/p/a.txt", some "txt", some 1, .ok [120], some [120]⟩
    "## File: a.txt\n\n```txt\nx\n```\n\n" (by decide)

/-- A UTF-8 continuation byte is at least `0x80`, hence nonzero. -/
theorem isUtf8Cont_ge (c : Nat) (h : isUtf8Cont c = true) : 0x80 ≤ c := by
  simp [isUtf8Cont] at h
  exact h.1

/-- A first continuation byte accepted after any lead is at least `0x80`,
hence nonzero. -/
theorem isUtf8First_ge (b c : Nat) (h : isUtf8First b c = true) : 0x80 ≤ c := by
  unfold isUtf8First at h
  split_ifs at h <;> first
    | (simp at h; omega)
    | exact isUtf8Cont_ge c h

/-- A null byte in the input always surfaces as the character U+0000 in
the lossy decode: `0x00` is a valid one-byte sequence and is never
swallowed as part of a multi-byte sequence, whose continuation bytes all
lie in `0x80..0xBF`. -/
theorem zero_char_mem_lossy : ∀ (fuel : Nat) (bs : List Nat),
    0 ∈ bs → bs.length ≤ fuel → Char.ofNat 0 ∈ lossyAux fuel bs := by
  intro fuel bs
  induction fuel, bs using lossyAux.induct
  case case1 x =>
    intro h0 hlen
    rw [List.length_eq_zero.mp (Nat.le_zero.mp hlen)] at h0
    simp at h0
  case case2 n =>
    intro h0 _
    simp at h0
  case case3 fuel b rest hb ih =>
    intro h0 hlen
    rcases List.mem_cons.mp h0 with h | h0r
    · subst h
      simp [lossyAux]
    · have hlen2 : rest.length ≤ fuel := by simp at hlen ⊢; omega
      simp only [lossyAux, hb, if_true, reduceIte]
      exact List.mem_cons_of_mem _ (ih h0r hlen2)
  case case4 fuel b rest hb1 hb2 ih =>
    intro h0 hlen
    have h0r : 0 ∈ rest := by
      simp only [List.mem_cons] at h0
      rcases h0 with h | h
      · omega
      · exact h
    have hlen2 : rest.length ≤ fuel := by simp at hlen ⊢; omega
    simp only [lossyAux, hb1, hb2, reduceIte]
    exact List.mem_cons_of_mem _ (ih h0r hlen2)
  case case5 fuel b hb1 hb2 hb3 =>
    intro h0 _
    simp at h0
    omega
  case case6 fuel b hb1 hb2 hb3 c1 rest1 hc1 ih =>
    intro h0 hlen
    have hge := isUtf8Cont_ge c1 hc1
    have h0r : 0 ∈ rest1 := by
      simp only [List.mem_cons] at h0
      rcases h0 with h | h | h
      · omega
      · omega
      · exact h
    have hlen2 : rest1.length ≤ fuel := by simp at hlen ⊢; omega
    simp only [lossyAux, hb1, hb2, hb3, hc1, reduceIte]
    exact List.mem_cons_of_mem _ (ih h0r hlen2)
  case case7 fuel b hb1 hb2 hb3 c1 rest1 hc1 ih =>
    intro h0 hlen
    have h0r : 0 ∈ c1 :: rest1 := by
      simp only [List.mem_cons] at h0 ⊢
      rcases h0 with h | h
      · omega
      · exact h
    have hlen2 : (c1 :: rest1).length ≤ fuel := by simp at hlen ⊢; omega
    simp only [lossyAux, hb1, hb2, hb3, hc1, reduceIte]
    exact List.mem_cons_of_mem _ (ih h0r hlen2)
  case case8 fuel b hb1 hb2 hb3 hb4 =>
    intro h0 _
    simp at h0
    omega
  case case9 fuel b hb1 hb2 hb3 hb4 c1 hc1 =>
    intro h0 _
    have hge := isUtf8First_ge b c1 hc1
    simp at h0
    rcases h0 with h | h <;> omega
  case case10 fuel b hb1 hb2 hb3 hb4 c1 hc1 c2 rest1 hc2 ih =>
    intro h0 hlen
    have hge1 := isUtf8First_ge b c1 hc1
    have hge2 := isUtf8Cont_ge c2 hc2
    have h0r : 0 ∈ rest1 := by
      simp only [List.mem_cons] at h0
      rcases h0 with h | h | h | h
      · omega
      · omega
      · omega
      · exact h
    have hlen2 : rest1.length ≤ fuel := by simp at hlen ⊢; omega
    simp only [lossyAux, hb1, hb2, hb3, hb4, hc1, hc2, reduceIte]
    exact List.mem_cons_of_mem _ (ih h0r hlen2)
  case case11 fuel b hb1 hb2 hb3 hb4 c1 hc1 c2 rest1 hc2 ih =>
    intro h0 hlen
    have hge1 := isUtf8First_ge b c1 hc1
    have h0r : 0 ∈ c2 :: rest1 := by
      simp only [List.mem_cons] at h0 ⊢
      rcases h0 with h | h | h
      · omega
      · omega
      · exact h
    have hlen2 : (c2 :: rest1).length ≤ fuel := by simp at hlen ⊢; omega
    simp only [lossyAux, hb1, hb2, hb3, hb4, hc1, hc2, reduceIte]
    exact List.mem_cons_of_mem _ (ih h0r hlen2)
  case case12 fuel b hb1 hb2 hb3 hb4 c1 rest1 hc1 ih =>
    intro h0 hlen
    have h0r : 0 ∈ c1 :: rest1 := by
      simp only [List.mem_cons] at h0 ⊢
      rcases h0 with h | h
      · omega
      · exact h
    have hlen2 : (c1 :: rest1).length ≤ fuel := by simp at hlen ⊢; omega
    simp only [lossyAux, hb1, hb2, hb3, hb4, hc1, reduceIte]
    exact List.mem_cons_of_mem _ (ih h0r hlen2)
  case case13 fuel b hb1 hb2 hb3 hb4 hb5 =>
    intro h0 _
    simp at h0
    omega
  case case14 fuel b hb1 hb2 hb3 hb4 hb5 c1 hc1 =>
    intro h0 _
    have hge := isUtf8First_ge b c1 hc1
    simp at h0
    rcases h0 with h | h <;> omega
  case case15 fuel b hb1 hb2 hb3 hb4 hb5 c1 hc1 c2 hc2 =>
    intro h0 _
    have hge1 := isUtf8First_ge b c1 hc1
    have hge2 := isUtf8Cont_ge c2 hc2
    simp at h0
    rcases h0 with h | h | h <;> omega
  case case16 fuel b hb1 hb2 hb3 hb4 hb5 c1 hc1 c2 hc2 c3 rest1 hc3 ih =>
    intro h0 hlen
    have hge1 := isUtf8First_ge b c1 hc1
    have hge2 := isUtf8Cont_ge c2 hc2
    have hge3 := isUtf8Cont_ge c3 hc3
    have h0r : 0 ∈ rest1 := by
      simp only [List.mem_cons] at h0
      rcases h0 with h | h | h | h | h
      · omega
      · omega
      · omega
      · omega
      · exact h
    have hlen2 : rest1.length ≤ fuel := by simp at hlen ⊢; omega
    simp only [lossyAux, hb1, hb2, hb3, hb4, hb5, hc1, hc2, hc3, reduceIte]
    exact List.mem_cons_of_mem _ (ih h0r hlen2)
  case case17 fuel b hb1 hb2 hb3 hb4 hb5 c1 hc1 c2 hc2 c3 rest1 hc3 ih =>
    intro h0 hlen
    have hge1 := isUtf8First_ge b c1 hc1
    have hge2 := isUtf8Cont_ge c2 hc2
    have h0r : 0 ∈ c3 :: rest1 := by
      simp only [List.mem_cons] at h0 ⊢
      rcases h0 with h | h | h | h
      · omega
      · omega
      · omega
      · exact h
    have hlen2 : (c3 :: rest1).length ≤ fuel := by simp at hlen ⊢; omega
    simp only [lossyAux, hb1, hb2, hb3, hb4, hb5, hc1, hc2, hc3, reduceIte]
    exact List.mem_cons_of_mem _ (ih h0r hlen2)
  case case18 fuel b hb1 hb2 hb3 hb4 hb5 c1 hc1 c2 rest1 hc2 ih =>
    intro h0 hlen
    have hge1 := isUtf8First_ge b c1 hc1
    have h0r : 0 ∈ c2 :: rest1 := by
      simp only [List.mem_cons] at h0 ⊢
      rcases h0 with h | h | h
      · omega
      · omega
      · exact h
    have hlen2 : (c2 :: rest1).length ≤ fuel := by simp at hlen ⊢; omega
    simp only [lossyAux, hb1, hb2, hb3, hb4, hb5, hc1, hc2, reduceIte]
    exact List.mem_cons_of_mem _ (ih h0r hlen2)
  case case19 fuel b hb1 hb2 hb3 hb4 hb5 c1 rest1 hc1 ih =>
    intro h0 hlen
    have h0r : 0 ∈ c1 :: rest1 := by
      simp only [List.mem_cons] at h0 ⊢
      rcases h0 with h | h
      · omega
      · exact h
    have hlen2 : (c1 :: rest1).length ≤ fuel := by simp at hlen ⊢; omega
    simp only [lossyAux, hb1, hb2, hb3, hb4, hb5, hc1, reduceIte]
    exact List.mem_cons_of_mem _ (ih h0r hlen2)
  case case20 fuel b rest hb1 hb2 hb3 hb4 hb5 ih =>
    intro h0 hlen
    have h0r : 0 ∈ rest := by
      simp only [List.mem_cons] at h0
      rcases h0 with h | h
      · omega
      · exact h
    have hlen2 : rest.length ≤ fuel := by simp at hlen ⊢; omega
    simp only [lossyAux, hb1, hb2, hb3, hb4, hb5, reduceIte]
    exact List.mem_cons_of_mem _ (ih h0r hlen2)

/-- A file whose decoded content is entirely whitespace contains no null
byte: U+0000 is not a whitespace character, yet a null byte would decode
to it. -/
theorem no_zero_byte_of_ws (bs : List Nat)
    (h : (from_utf8_lossy bs).data.all isRustWhitespace = true) : 0 ∉ bs := by
  intro h0
  have hmem : Char.ofNat 0 ∈ (from_utf8_lossy bs).data :=
    zero_char_mem_lossy bs.length bs h0 le_rfl
  have hws := List.all_eq_true.mp h (Char.ofNat 0) hmem
  exact absurd hws (by decide)

/-- C8: for a zero-length file, and more generally for any file whose
decoded content consists only of whitespace, the Text Sniffer reports
"text" on the first-kilobyte probe, yet the trimmed decoded content is
empty, so the per-file chain skips the file at the emptiness filter. -/
theorem claim_C8_whitespace_only (bs : List Nat)
    (hws : (from_utf8_lossy bs).data.all isRustWhitespace = true) :
    is_text_file (.ok (bs.take 1024)) = true
    ∧ (rustTrim (from_utf8_lossy bs)).isEmpty = true
    ∧ (∀ out_name out_abs c, c.fileName ≠ some out_name →
        c.canonResult ≠ some out_abs → ext_skips c.ext = false →
        size_skips c.metaSize = false → c.sniff = .ok (bs.take 1024) →
        c.readResult = some bs →
        processCandidate out_name out_abs c = .error .blank) := by
  have hz : 0 ∉ bs := no_zero_byte_of_ws bs hws
  have hz2 : 0 ∉ bs.take 1024 := fun hm => hz (List.take_subset _ _ hm)
  have hsniff : is_text_file (.ok (bs.take 1024)) = true := by
    by_cases hlen : (bs.take 1024).length = 0 <;>
      simp [is_text_file, hlen, List.elem_iff, hz2]
  have htrim : (rustTrim (from_utf8_lossy bs)).isEmpty = true := by
    have h1 : (from_utf8_lossy bs).data.dropWhile isRustWhitespace = [] :=
      List.dropWhile_eq_nil_iff.mpr (fun x hx => List.all_eq_true.mp hws x hx)
    simp [rustTrim, h1]
    rfl
  refine ⟨hsniff, htrim, ?_⟩
  intro o a c h1 h2 h3 h4 h5 h6
  have hc2 := canon_match_false h2
  have hsn : is_text_file c.sniff = true := by rw [h5]; exact hsniff
  simp [processCandidate, h1, hc2, h3, h4, hsn, h6, htrim]

/-- Witness for C8: the zero-length file and a concrete space-newline file
both pass the sniffer and are dropped by the emptiness filter. -/
theorem claim_C8_witness :
    is_text_file (.ok (([] : List Nat).take 1024)) = true
    ∧ (rustTrim (from_utf8_lossy [])).isEmpty = true
    ∧ is_text_file (.ok (([32, 10] : List Nat).take 1024)) = true
    ∧ processCandidate "proj.md" "/p/proj.md"
        ⟨some "a.txt", "a.txt", some "/p/a.txt", some "txt", some 2,
          .ok (([32, 10] : List Nat).take 1024), some [32, 10]⟩
        = .error .blank :=
  ⟨(claim_C8_whitespace_only [] (by decide)).1,
   (claim_C8_whitespace_only [] (by decide)).2.1,
   (claim_C8_whitespace_only [32, 10] (by decide)).1,
   (claim_C8_whitespace_only [32, 10] (by decide)).2.2 "proj.md" "/p/proj.md"
     ⟨some "a.txt", "a.txt", some "/p/a.txt", some "txt", some 2,
       .ok (([32, 10] : List Nat).take 1024), some [32, 10]⟩
     (by decide) (by decide) (by decide) (by decide) rfl rfl⟩

end Code2md
